import Mathlib

/-!
Verification of the textstat readability engine against its specification.

The Python sources under `src/textstat/` are shallowly embedded here:
Python `str` values become `List Char` (a list of Unicode code points),
Python `int` becomes `ℤ`, Python `float` becomes `ℚ`, and fallible code
paths (`try`/`except ZeroDivisionError`) become explicit case splits on
the zero denominator.  Functions of the repository that are not present
under `src/` (the normalizer `remove_punctuation`, the primitive counters
`count_chars`/`count_words`, six of the eight consensus formulas, and the
ordinal-suffix formatter) are modelled from the specification text; each
such definition carries a doc comment saying so.
-/

/-! ## Character classes -/

/-- ASCII whitespace, the character class Python's `str.split()` and the
regex class `\s` agree on for the inputs considered here. -/
def isSpaceChar (c : Char) : Bool :=
  c = ' ' || c = '\t' || c = '\n' || c = '\r' || c.toNat = 11 || c.toNat = 12

/-- The sentence-terminal characters of `_count_sentences.py`. -/
def isTerminalChar (c : Char) : Bool := c = '.' || c = '!' || c = '?'

/-- The regex word class `\b` relies on: alphanumeric characters and the
underscore.  (Non-ASCII word characters are elided; no claim depends on
the extension of this class.) -/
def isWordChar (c : Char) : Bool := c.isAlphanum || c = '_'

/-- Letters, digits and whitespace survive punctuation removal.  Non-ASCII
code points (in particular the Arabic letters and diacritics used below)
are treated as letter material, not punctuation. -/
def isTextChar (c : Char) : Bool :=
  c.isAlphanum || isSpaceChar c || decide (0x80 ≤ c.toNat)

/-- The apostrophe character. -/
def apostropheChar : Char := Char.ofNat 39

/-- Letter-or-non-ASCII, used for the contraction-apostrophe rule. -/
def isLetterLike (c : Char) : Bool := c.isAlpha || decide (0x80 ≤ c.toNat)

/-! ## Normalizer and primitive splitters -/

/-- Helper for the apostrophe-keeping branch of the normalizer: keeps a
character when it is letter/digit/whitespace material, or when it is an
apostrophe standing directly between two letters. -/
def keepAposScan : Option Char → List Char → List Char
  | _, [] => []
  | prev, c :: rest =>
    if isTextChar c ||
        (c = apostropheChar && prev.elim false isLetterLike
          && (rest.head?.elim false isLetterLike)) then
      c :: keepAposScan (some c) rest
    else
      keepAposScan (some c) rest

/-- Modelled from the spec: `transformations.remove_punctuation` is not
under `src/`.  Section 4.1: remove every character that is not a letter,
digit, or whitespace (hyphens included); when `rmApostrophe` is false an
apostrophe directly between two letter runs is kept. -/
def remove_punctuation (text : List Char) (rmApostrophe : Bool) : List Char :=
  if rmApostrophe then text.filter isTextChar else keepAposScan none text

/-- Python's `str.split()` with no separator: maximal runs of
non-whitespace characters, empty runs dropped. -/
def pySplit (cs : List Char) : List (List Char) :=
  match cs with
  | [] => []
  | c :: rest =>
    if h : isSpaceChar c = true then
      pySplit rest
    else
      ((c :: rest).takeWhile (fun x => !isSpaceChar x))
        :: pySplit ((c :: rest).dropWhile (fun x => !isSpaceChar x))
termination_by cs.length
decreasing_by
  · simp only [List.length_cons]; omega
  · rw [List.dropWhile_cons_of_pos (by simp [h])]
    have := (List.dropWhile_sublist (l := rest) (fun x => !isSpaceChar x)).length_le
    simp only [List.length_cons]; omega

/-- Modelled from the spec: `counts.count_chars` is not under `src/`.
Section 4.3: count of code points, optionally excluding whitespace. -/
def count_chars (text : List Char) (ignore_spaces : Bool) : ℤ :=
  ((if ignore_spaces then text.filter (fun c => !isSpaceChar c) else text).length : ℤ)

/-- Modelled from the spec: `selections.list_words` is not under `src/`.
Sections 4.3 and 4.4: the word list is obtained by splitting on whitespace
after punctuation removal. -/
def list_words (text : List Char) : List (List Char) :=
  pySplit (remove_punctuation text true)

/-- Modelled from the spec: `counts.count_words` is not under `src/`.
Section 4.3: splits on whitespace after normalization and returns the
token count. -/
def count_words (text : List Char) : ℤ := ((list_words text).length : ℤ)

/-! ## Sentence segmentation (`_count_sentences.py`) -/

/-- The scan of `re.findall(r"\b[^.!?]+[.!?]*", text)`: walk the text
left to right; a match starts at a word boundary (tracked through the
flag `prevW`, whether the previous character was a `\b` word character)
on a non-terminal character, and then greedily captures the run of
non-terminal characters followed by the run of terminal marks.  After a
match either nothing remains or the last captured character is a terminal
mark, which is not a word character, so the flag resumes as `false`. -/
def findSegments (prevW : Bool) (cs : List Char) : List (List Char) :=
  match cs with
  | [] => []
  | c :: rest =>
    if h : ((prevW != isWordChar c) && !isTerminalChar c) = true then
      ((c :: rest).takeWhile (fun x => !isTerminalChar x)
          ++ ((c :: rest).dropWhile (fun x => !isTerminalChar x)).takeWhile isTerminalChar)
        :: findSegments false
            (((c :: rest).dropWhile (fun x => !isTerminalChar x)).dropWhile isTerminalChar)
    else
      findSegments (isWordChar c) rest
termination_by cs.length
decreasing_by
  · have hterm : isTerminalChar c = false := by
      rcases Bool.and_eq_true .. ▸ h with ⟨-, h2⟩
      simpa using h2
    rw [List.dropWhile_cons_of_pos (by simp [hterm])]
    have h2 := (List.dropWhile_sublist (l := rest) (fun x => !isTerminalChar x)).length_le
    have h3 := (List.dropWhile_sublist
      (l := rest.dropWhile (fun x => !isTerminalChar x)) isTerminalChar).length_le
    simp only [List.length_cons]; omega
  · simp only [List.length_cons]; omega

/-- `count_sentences` from `src/textstat/backend/counts/_count_sentences.py`:
find all segments, ignore those with at most two words, floor at one. -/
def count_sentences (text : List Char) : ℤ :=
  let sentences := findSegments false text
  let ignore_count := (sentences.filter (fun s => count_words s ≤ 2)).length
  max 1 ((sentences.length : ℤ) - (ignore_count : ℤ))

/-! ## Arabic counters -/

/-- The list literal `[r"َ", r"ُ", r"ِ"]` from
`count_arabic_syllables.py`.  These are Python *raw* strings: each is the
six-character sequence backslash, `u`, and four hex digits, not a single
diacritic code point. -/
def tashkeelRaw : List (List Char) :=
  ["\\u064E".toList, "\\u064F".toList, "\\u0650".toList]

/-- Arabic letters and diacritics used by the counters. -/
def alefChar : Char := Char.ofNat 0x0627

def wawChar : Char := Char.ofNat 0x0648

def yehChar : Char := Char.ofNat 0x064A

def alefMaqsuraChar : Char := Char.ofNat 0x0649

def fehChar : Char := Char.ofNat 0x0641

def fathaChar : Char := Char.ofNat 0x064E

def dammaChar : Char := Char.ofNat 0x064F

def kasraChar : Char := Char.ofNat 0x0650

/-- The long-vowel letters `["ا", "و", "ي"]` (ordinary
string literals in the source, hence real one-character strings). -/
def longVowelStrs : List (List Char) := [[alefChar], [wawChar], [yehChar]]

/-- The four stress diacritics of the regex
`[ًٌٍّ]` (regex escapes, hence real code points). -/
def stressChars : List Char :=
  [Char.ofNat 0x064B, Char.ofNat 0x064C, Char.ofNat 0x064D, Char.ofNat 0x0651]

/-- `char_list`: the characters of the punctuation-stripped, whitespace
split words, each a one-character string in Python. -/
def charList (text : List Char) : List (List Char) :=
  ((pySplit (remove_punctuation text true)).flatten).map (fun c => [c])

/-- One pass of the inner `for i, c in enumerate(char_list)` loop of
`count_arabic_syllables` for a fixed entry `t` of the tashkeel list:
wherever `c == t`, the occurrence counts as long when the next entry is a
long-vowel letter, otherwise as short.  Returns (short, long). -/
def scanShortLong (t : List Char) : List (List Char) → ℕ × ℕ
  | [] => (0, 0)
  | c :: rest =>
    let p := scanShortLong t rest
    if c = t then
      match rest with
      | nxt :: _ => if nxt ∈ longVowelStrs then (p.1, p.2 + 1) else (p.1 + 1, p.2)
      | [] => (p.1 + 1, p.2)
    else p

/-- The two nested loops of `count_arabic_syllables`: totals over the
three tashkeel entries. -/
def shortLongCounts (cl : List (List Char)) : ℕ × ℕ :=
  tashkeelRaw.foldl
    (fun acc t =>
      let r := scanShortLong t cl
      (acc.1 + r.1, acc.2 + r.2))
    (0, 0)

/-- The fallback strip `re.sub(r"[اى\?\.\!\,\s*]", "", text)`. -/
def strippedFallback (text : List Char) : List Char :=
  text.filter (fun c =>
    !(c = alefChar || c = alefMaqsuraChar || c = '?' || c = '.' || c = '!'
      || c = ',' || isSpaceChar c || c = '*'))

/-- `count_arabic_syllables` from
`src/textstat/backend/counts/count_arabic_syllables.py`. -/
def count_arabic_syllables (text : List Char) : ℤ :=
  let sl := shortLongCounts (charList text)
  let stress_count : ℤ := ((text.filter (fun c => c ∈ stressChars)).length : ℤ)
  let short_count : ℤ :=
    if sl.1 = 0 then ((strippedFallback text).length : ℤ) - 2 else (sl.1 : ℤ)
  short_count + 2 * ((sl.2 : ℤ) + stress_count)

/-- The tashkeel characters removed by `count_arabic_long_words` (regex
escapes, hence real code points). -/
def tashkeelAllChars : List Char :=
  [Char.ofNat 0x064E, Char.ofNat 0x064B, Char.ofNat 0x064F, Char.ofNat 0x064C,
   Char.ofNat 0x0650, Char.ofNat 0x064D, Char.ofNat 0x0651, Char.ofNat 0x0652,
   Char.ofNat 0x0653, Char.ofNat 0x0657, Char.ofNat 0x0658]

/-- `count_arabic_long_words` from
`src/textstat/backend/counts/_count_arabic_long_words.py`. -/
def count_arabic_long_words (text : List Char) : ℤ :=
  let t1 := text.filter (fun c => !(c ∈ tashkeelAllChars))
  let t2 := remove_punctuation t1 true
  (((pySplit t2).filter (fun w => 5 < w.length)).length : ℤ)

/-- `count_monosyllable_words` from
`src/textstat/backend/counts/_count_monosyllable_words.py`; the per-word
syllable count `count_syllables` is the external hyphenation collaborator
(Section 6 of the spec), passed as `syl`. -/
def count_monosyllable_words (syl : List Char → ℤ) (text : List Char) : ℤ :=
  (((list_words text).filter (fun w => syl w = 1)).length : ℤ)

/-- Modelled from the spec: `counts.count_polysyllable_words` is not under
`src/`.  Section 4.3: words with more than 3 syllables, the per-word
syllable count coming from the hyphenation collaborator `syl`. -/
def count_polysyllable_words (syl : List Char → ℤ) (text : List Char) : ℤ :=
  (((list_words text).filter (fun w => 3 < syl w)).length : ℤ)

/-! ## Formula library (`src/textstat/backend/metrics/`) -/

/-- `automated_readability_index` from
`src/textstat/backend/metrics/automated_readability_index.py`.  The
Python `try` block performs both divisions before returning, so a zero
word count or zero sentence count lands in the
`except ZeroDivisionError` branch. -/
def automated_readability_index (text : List Char) : ℚ :=
  let chrs := count_chars text true
  let words := count_words text
  let sentences := count_sentences text
  if words = 0 ∨ sentences = 0 then 0
  else 4.71 * ((chrs : ℚ) / (words : ℚ)) + 0.5 * ((words : ℚ) / (sentences : ℚ)) - 21.43

/-- Stand-in for the floating-point `** 0.5` of `smog_index.py`: the
rational square-root approximation.  No claim in this development
depends on the value of the branch that uses it. -/
def pyPowHalf (q : ℚ) : ℚ := Rat.sqrt q

/-- `smog_index` from `src/textstat/backend/metrics/smog_index.py`.  The
sentence count is at least 1 in this code base, so the
`except ZeroDivisionError` branch is mirrored by the inner case split. -/
def smog_index (syl : List Char → ℤ) (text : List Char) : ℚ :=
  let sentences := count_sentences text
  if sentences < 3 then 0
  else
    let poly_syllab := count_polysyllable_words syl text
    if sentences = 0 then 0
    else 1.043 * pyPowHalf (30 * ((poly_syllab : ℚ) / (sentences : ℚ))) + 3.1291

/-- `chars_per_word` from
`src/textstat/backend/metrics/chars_per_word.py`: a zero word count lands
in the `except ZeroDivisionError` branch, which returns the character
count itself. -/
def chars_per_word (text : List Char) (ignore_spaces : Bool) : ℚ :=
  if count_words text = 0 then (count_chars text ignore_spaces : ℚ)
  else (count_chars text ignore_spaces : ℚ) / (count_words text : ℚ)

/-! ## Consensus engine (`_text_standard.py` and the wrapper) -/

/-- The Flesch-Reading-Ease vote bucket of `text_standard`
(`src/textstat/backend/metrics/_text_standard.py`, lines 28-45). -/
def freBucket (score : ℚ) : List ℤ :=
  if score < 100 ∧ score ≥ 90 then [5]
  else if score < 90 ∧ score ≥ 80 then [6]
  else if score < 80 ∧ score ≥ 70 then [7]
  else if score < 70 ∧ score ≥ 60 then [8, 9]
  else if score < 60 ∧ score ≥ 50 then [10]
  else if score < 50 ∧ score ≥ 40 then [11]
  else if score < 40 ∧ score ≥ 30 then [12]
  else [13]

/-- The keys of `collections.Counter(grade)` in insertion order: first
occurrences, later duplicates dropped. -/
def firstOccKeys : List ℤ → List ℤ
  | [] => []
  | v :: vs => v :: firstOccKeys (vs.filter (fun u => u != v))
termination_by l => l.length
decreasing_by
  have := List.length_filter_le (fun u => u != v) vs
  simp only [List.length_cons]; omega

/-- `Counter(grade).most_common(1)`: the most frequent value; on equal
counts the stable descending sort keeps dictionary (first-insertion)
order, so the winner is the first key in insertion order that attains
the maximal count. -/
def mostCommon1 (votes : List ℤ) : Option ℤ :=
  let keys := firstOccKeys votes
  let maxCount := (keys.map (fun k => votes.count k)).foldr max 0
  keys.find? (fun k => votes.count k == maxCount)

/-- Modelled from the spec: the six grade formulas of the consensus
ensemble that are not under `src/` (Flesch-Kincaid Grade, Flesch Reading
Ease, Coleman-Liau, Dale-Chall, Linsear Write, Gunning Fog) and the
hyphenation collaborator `syllables_for` (Section 6) are supplied as an
environment; Section 4.5 constrains them through `DivZeroPolicy` below. -/
structure Formulas where
  flesch_kincaid_grade : List Char → ℚ
  flesch_reading_ease : List Char → ℚ
  coleman_liau_index : List Char → ℚ
  dale_chall_readability_score : List Char → ℚ
  linsear_write_formula : List Char → ℚ
  gunning_fog : List Char → ℚ
  syllables_for : List Char → ℤ

/-- Modelled from the spec, Section 4.5: "if any denominator (words,
sentences) is zero, return 0.0".  For a text with zero words every
formula of the ensemble returns 0. -/
def DivZeroPolicy (F : Formulas) : Prop :=
  ∀ t, count_words t = 0 →
    F.flesch_kincaid_grade t = 0 ∧ F.flesch_reading_ease t = 0 ∧
    F.coleman_liau_index t = 0 ∧ F.dale_chall_readability_score t = 0 ∧
    F.linsear_write_formula t = 0 ∧ F.gunning_fog t = 0

/-- The vote list of `text_standard`
(`src/textstat/backend/metrics/_text_standard.py`): floor and ceiling of
each grade formula, with the Flesch-Reading-Ease bucket in second
position. -/
def gradeVotes (F : Formulas) (text : List Char) : List ℤ :=
  [⌊F.flesch_kincaid_grade text⌋, ⌈F.flesch_kincaid_grade text⌉]
    ++ freBucket (F.flesch_reading_ease text)
    ++ [⌊smog_index F.syllables_for text⌋, ⌈smog_index F.syllables_for text⌉]
    ++ [⌊F.coleman_liau_index text⌋, ⌈F.coleman_liau_index text⌉]
    ++ [⌊automated_readability_index text⌋, ⌈automated_readability_index text⌉]
    ++ [⌊F.dale_chall_readability_score text⌋, ⌈F.dale_chall_readability_score text⌉]
    ++ [⌊F.linsear_write_formula text⌋, ⌈F.linsear_write_formula text⌉]
    ++ [⌊F.gunning_fog text⌋, ⌈F.gunning_fog text⌉]

/-- `text_standard` from `src/textstat/backend/metrics/_text_standard.py`:
`float(Counter(grade).most_common(1)[0][0])`.  The vote list always has
fifteen entries, so `mostCommon1` succeeds; the default only totalizes. -/
def text_standard (F : Formulas) (text : List Char) : ℚ :=
  (((mostCommon1 (gradeVotes F text)).getD 0 : ℤ) : ℚ)

/-- Python `int()` on a float: truncation toward zero. -/
def pyInt (q : ℚ) : ℤ := if q < 0 then ⌈q⌉ else ⌊q⌋

/-- Modelled from the spec: `utils.get_grade_suffix` is the external
ordinal-suffix collaborator (Section 6, `suffix_for`); standard English
ordinal suffixes, with Python's nonnegative `%` semantics matched by
`Int.emod`. -/
def get_grade_suffix (g : ℤ) : List Char :=
  if g % 100 = 11 ∨ g % 100 = 12 ∨ g % 100 = 13 then "th".toList
  else if g % 10 = 1 then "st".toList
  else if g % 10 = 2 then "nd".toList
  else if g % 10 = 3 then "rd".toList
  else "th".toList

/-- `textstatistics.text_standard` with `float_output=True`
(`src/textstat/textstat.py`): `_legacy_round` with the default
`__round_points = None` returns its argument unchanged. -/
def textstatistics_text_standard_float (F : Formulas) (text : List Char) : ℚ :=
  text_standard F text

/-- `textstatistics.text_standard` with `float_output=False`
(`src/textstat/textstat.py`, lines 833-845): renders
`int(standard_value) - 1` and its successor with ordinal suffixes. -/
def textstatistics_text_standard_text (F : Formulas) (sfx : ℤ → List Char)
    (text : List Char) : List Char :=
  let lower := pyInt (text_standard F text) - 1
  let upper := lower + 1
  (Int.repr lower).toList ++ sfx lower ++ " and ".toList
    ++ (Int.repr upper).toList ++ sfx upper ++ " grade".toList

/-- The all-zero formula environment: the values the spec's
division-by-zero policy forces on a zero-word text, used as a concrete
instantiation. -/
def zeroFormulas : Formulas :=
  ⟨fun _ => 0, fun _ => 0, fun _ => 0, fun _ => 0, fun _ => 0, fun _ => 0, fun _ => 0⟩

/-! ## Helper lemmas: splitting `takeWhile`/`dropWhile` over an append -/

theorem takeWhile_append_eq {α : Type} [DecidableEq α] (q : α → Bool) (l p : List α) :
    (l ++ p).takeWhile q
      = l.takeWhile q ++ (if l.dropWhile q = [] then p.takeWhile q else []) := by
  induction l with
  | nil => simp
  | cons c cs ih =>
    by_cases h : q c
    · simp [List.takeWhile_cons, List.dropWhile_cons, h, ih]
    · simp [List.takeWhile_cons, List.dropWhile_cons, h]

theorem dropWhile_append_eq {α : Type} [DecidableEq α] (q : α → Bool) (l p : List α) :
    (l ++ p).dropWhile q
      = (if l.dropWhile q = [] then p.dropWhile q else l.dropWhile q ++ p) := by
  induction l with
  | nil => simp
  | cons c cs ih =>
    by_cases h : q c
    · simp [List.dropWhile_cons, h, ih]
    · simp [List.dropWhile_cons, h]

/-! ## Helper lemmas: equation forms of the well-founded definitions -/

theorem findSegments_nil (b : Bool) : findSegments b [] = [] := by
  simp [findSegments]

theorem findSegments_cons_pos (b : Bool) (c : Char) (rest : List Char)
    (h : ((b != isWordChar c) && !isTerminalChar c) = true) :
    findSegments b (c :: rest)
      = ((c :: rest).takeWhile (fun x => !isTerminalChar x)
          ++ (((c :: rest).dropWhile (fun x => !isTerminalChar x)).takeWhile isTerminalChar))
        :: findSegments false
            (((c :: rest).dropWhile (fun x => !isTerminalChar x)).dropWhile isTerminalChar) := by
  rw [findSegments]
  simp only [h, reduceDIte]

theorem findSegments_cons_neg (b : Bool) (c : Char) (rest : List Char)
    (h : ¬ ((b != isWordChar c) && !isTerminalChar c) = true) :
    findSegments b (c :: rest) = findSegments (isWordChar c) rest := by
  rw [findSegments]
  simp only [h, reduceDIte, Bool.false_eq_true, dite_false]

theorem pySplit_nil : pySplit [] = [] := by simp [pySplit]

theorem pySplit_cons_space (c : Char) (rest : List Char) (h : isSpaceChar c = true) :
    pySplit (c :: rest) = pySplit rest := by
  rw [pySplit]
  simp only [h, reduceDIte]

theorem pySplit_cons_nonspace (c : Char) (rest : List Char) (h : ¬ isSpaceChar c = true) :
    pySplit (c :: rest)
      = ((c :: rest).takeWhile (fun x => !isSpaceChar x))
        :: pySplit ((c :: rest).dropWhile (fun x => !isSpaceChar x)) := by
  rw [pySplit]
  simp only [h, reduceDIte, Bool.false_eq_true, dite_false]

theorem firstOccKeys_nil : firstOccKeys [] = [] := by simp [firstOccKeys]

theorem firstOccKeys_cons (v : ℤ) (vs : List ℤ) :
    firstOccKeys (v :: vs) = v :: firstOccKeys (vs.filter (fun u => u != v)) := by
  simp [firstOccKeys]

/-! ## Helper lemmas: terminal-only strings -/

theorem allTerm_takeWhile_not (p : List Char) (hp : ∀ c ∈ p, isTerminalChar c = true) :
    p.takeWhile (fun x => !isTerminalChar x) = [] := by
  cases p with
  | nil => rfl
  | cons c rest => simp [List.takeWhile_cons, hp c (by simp)]

theorem allTerm_dropWhile_not (p : List Char) (hp : ∀ c ∈ p, isTerminalChar c = true) :
    p.dropWhile (fun x => !isTerminalChar x) = p := by
  cases p with
  | nil => rfl
  | cons c rest => simp [List.dropWhile_cons, hp c (by simp)]

theorem allTerm_takeWhile_term (p : List Char) (hp : ∀ c ∈ p, isTerminalChar c = true) :
    p.takeWhile isTerminalChar = p :=
  List.takeWhile_eq_self_iff.mpr hp

theorem allTerm_dropWhile_term (p : List Char) (hp : ∀ c ∈ p, isTerminalChar c = true) :
    p.dropWhile isTerminalChar = [] :=
  List.dropWhile_eq_nil_iff.mpr hp

/-- A text consisting only of sentence-terminal marks contains no `\b`
boundary followed by a non-terminal character, hence no regex match. -/
theorem findSegments_allTerm (p : List Char) (hp : ∀ c ∈ p, isTerminalChar c = true) :
    ∀ b, findSegments b p = [] := by
  induction p with
  | nil => intro b; exact findSegments_nil b
  | cons c rest ih =>
    intro b
    rw [findSegments_cons_neg b c rest (by simp [hp c (by simp)])]
    exact ih (fun x hx => hp x (by simp [hx])) _

/-- Sentence-terminal marks are punctuation: `remove_punctuation` drops
them, so they never contribute word material. -/
theorem isTextChar_of_terminal (c : Char) (h : isTerminalChar c = true) :
    isTextChar c = false := by
  simp only [isTerminalChar, Bool.or_eq_true, decide_eq_true_eq] at h
  rcases h with (rfl | rfl) | rfl <;> decide

/-- Appending terminal-only characters to a string does not change its
word count. -/
theorem count_words_append_term (s p : List Char)
    (hp : ∀ c ∈ p, isTerminalChar c = true) :
    count_words (s ++ p) = count_words s := by
  have hfil : p.filter isTextChar = [] := by
    rw [List.filter_eq_nil_iff]
    intro c hc
    simp [isTextChar_of_terminal c (hp c hc)]
  simp only [count_words, list_words, remove_punctuation, if_pos, List.filter_append,
    hfil, List.append_nil]

/-- Appending terminal-only text to a text extends the last regex match
(or trails off unmatched) and never creates, destroys or reorders
segments; each segment keeps its word count. -/
theorem findSegments_append (b : Bool) (t : List Char) :
    ∀ p : List Char, (∀ c ∈ p, isTerminalChar c = true) →
      List.Forall₂ (fun s s' => count_words s = count_words s')
        (findSegments b t) (findSegments b (t ++ p)) := by
  induction b, t using findSegments.induct with
  | case1 b =>
    intro p hp
    rw [findSegments_nil, List.nil_append, findSegments_allTerm p hp b]
    exact List.Forall₂.nil
  | case2 b c rest h ih =>
    intro p hp
    rw [findSegments_cons_pos b c rest h,
      show (c :: rest) ++ p = c :: (rest ++ p) from rfl,
      findSegments_cons_pos b c (rest ++ p) h,
      show c :: (rest ++ p) = (c :: rest) ++ p from rfl,
      takeWhile_append_eq (fun x => !isTerminalChar x) (c :: rest) p,
      dropWhile_append_eq (fun x => !isTerminalChar x) (c :: rest) p]
    by_cases hr1 : (c :: rest).dropWhile (fun x => !isTerminalChar x) = []
    · rw [if_pos hr1, if_pos hr1, allTerm_takeWhile_not p hp, allTerm_dropWhile_not p hp,
        allTerm_takeWhile_term p hp, allTerm_dropWhile_term p hp, hr1]
      simp only [List.takeWhile_nil, List.dropWhile_nil, List.append_nil, findSegments_nil]
      exact List.Forall₂.cons (count_words_append_term _ p hp).symm List.Forall₂.nil
    · rw [if_neg hr1, if_neg hr1,
        takeWhile_append_eq isTerminalChar _ p, dropWhile_append_eq isTerminalChar _ p]
      by_cases hr2 :
          ((c :: rest).dropWhile (fun x => !isTerminalChar x)).dropWhile isTerminalChar = []
      · rw [if_pos hr2, if_pos hr2, allTerm_takeWhile_term p hp, allTerm_dropWhile_term p hp,
          hr2]
        simp only [List.append_nil, findSegments_nil]
        refine List.Forall₂.cons ?_ List.Forall₂.nil
        rw [← List.append_assoc]
        exact (count_words_append_term _ p hp).symm
      · rw [if_neg hr2, if_neg hr2]
        simp only [List.append_nil]
        exact List.Forall₂.cons rfl (ih p hp)
  | case3 b c rest h ih =>
    intro p hp
    rw [findSegments_cons_neg b c rest h,
      show (c :: rest) ++ p = c :: (rest ++ p) from rfl,
      findSegments_cons_neg b c (rest ++ p) h]
    exact ih p hp

/-- Word-count-preserving segment lists have the same number of ignored
(at-most-two-word) segments. -/
theorem forall2_filter_length (l l' : List (List Char))
    (h : List.Forall₂ (fun s s' => count_words s = count_words s') l l') :
    (l.filter (fun s => count_words s ≤ 2)).length
      = (l'.filter (fun s => count_words s ≤ 2)).length := by
  induction h with
  | nil => rfl
  | cons hab htl ih =>
    rename_i a b as bs
    by_cases hc : count_words a ≤ 2
    · rw [List.filter_cons_of_pos (by simpa using hc),
        List.filter_cons_of_pos (by simp [← hab, hc])]
      simpa using ih
    · rw [List.filter_cons_of_neg (by simpa using hc),
        List.filter_cons_of_neg (by simp [← hab, hc]), ih]

/-- Appending terminal-only punctuation leaves `count_sentences`
unchanged. -/
theorem count_sentences_append_term (t p : List Char)
    (hp : ∀ c ∈ p, isTerminalChar c = true) :
    count_sentences (t ++ p) = count_sentences t := by
  have h2 := findSegments_append false t p hp
  simp only [count_sentences]
  rw [← h2.length_eq, forall2_filter_length _ _ h2]

/-! ## Helper lemmas: segments, membership, and zero-word texts -/

/-- Every character of a segment is a character of the scanned text. -/
theorem mem_findSegments_subset (b : Bool) (t : List Char) :
    ∀ s ∈ findSegments b t, ∀ c ∈ s, c ∈ t := by
  induction b, t using findSegments.induct with
  | case1 b => simp [findSegments_nil]
  | case2 b c rest h ih =>
    rw [findSegments_cons_pos b c rest h]
    intro s hs x hx
    rcases List.mem_cons.mp hs with rfl | hs
    · rcases List.mem_append.mp hx with hx | hx
      · exact (List.takeWhile_sublist _).subset hx
      · exact ((List.takeWhile_sublist _).subset.trans
          (List.dropWhile_sublist _).subset) hx
    · exact ((List.dropWhile_sublist _).subset.trans
        (List.dropWhile_sublist _).subset) (ih s hs x hx)
  | case3 b c rest h ih =>
    rw [findSegments_cons_neg b c rest h]
    intro s hs x hx
    exact List.mem_cons_of_mem c (ih s hs x hx)

/-- Every segment is a nonempty run of non-terminal characters followed
by a (possibly empty) run of terminal marks. -/
theorem findSegments_shape (b : Bool) (t : List Char) :
    ∀ s ∈ findSegments b t, ∃ body terms, s = body ++ terms ∧ body ≠ []
      ∧ (∀ c ∈ body, isTerminalChar c = false)
      ∧ (∀ c ∈ terms, isTerminalChar c = true) := by
  induction b, t using findSegments.induct with
  | case1 b => simp [findSegments_nil]
  | case2 b c rest h ih =>
    rw [findSegments_cons_pos b c rest h]
    intro s hs
    rcases List.mem_cons.mp hs with rfl | hs
    · refine ⟨(c :: rest).takeWhile (fun x => !isTerminalChar x), _, rfl, ?_, ?_, ?_⟩
      · have hc : isTerminalChar c = false := by
          rcases Bool.and_eq_true .. ▸ h with ⟨-, h2⟩
          simpa using h2
        rw [List.takeWhile_cons_of_pos (by simp [hc])]
        simp
      · intro x hx
        simpa using List.mem_takeWhile_imp hx
      · intro x hx
        exact List.mem_takeWhile_imp hx
    · exact ih s hs
  | case3 b c rest h ih =>
    rw [findSegments_cons_neg b c rest h]
    exact ih

/-- `pySplit` yields no token exactly when the string is whitespace. -/
theorem pySplit_eq_nil_iff (l : List Char) :
    pySplit l = [] ↔ ∀ c ∈ l, isSpaceChar c = true := by
  induction l with
  | nil => simp [pySplit_nil]
  | cons c rest ih =>
    by_cases h : isSpaceChar c = true
    · rw [pySplit_cons_space c rest h]
      simp [h, ih]
    · rw [pySplit_cons_nonspace c rest h]
      simp [h]

/-- A text has zero words exactly when all its non-punctuation
characters are whitespace. -/
theorem count_words_eq_zero_iff (t : List Char) :
    count_words t = 0 ↔ ∀ c ∈ t, isTextChar c = true → isSpaceChar c = true := by
  simp only [count_words, list_words, remove_punctuation, if_true, Nat.cast_eq_zero,
    List.length_eq_zero, pySplit_eq_nil_iff]
  constructor
  · intro h c hc htc
    exact h c (List.mem_filter.mpr ⟨hc, htc⟩)
  · intro h c hc
    obtain ⟨hc1, hc2⟩ := List.mem_filter.mp hc
    exact h c hc1 hc2

/-- In a zero-word text every segment also has zero words. -/
theorem count_words_segment_zero (t : List Char) (h : count_words t = 0) :
    ∀ s ∈ findSegments false t, count_words s = 0 := by
  intro s hs
  rw [count_words_eq_zero_iff] at h ⊢
  intro c hc htc
  exact h c (mem_findSegments_subset false t s hs c hc) htc

/-- When every segment has at most two words, all segments are ignored
and the floor of one applies. -/
theorem count_sentences_eq_one_of_ignored (t : List Char)
    (h : ∀ s ∈ findSegments false t, count_words s ≤ 2) :
    count_sentences t = 1 := by
  have hfil : (findSegments false t).filter (fun s => count_words s ≤ 2)
      = findSegments false t :=
    List.filter_eq_self.mpr (fun s hs => by simpa using h s hs)
  simp [count_sentences, hfil]

/-! ## Helper lemmas: the Counter model -/

/-- Key membership in the Counter dictionary. -/
theorem mem_firstOccKeys (l : List ℤ) : ∀ v, v ∈ firstOccKeys l ↔ v ∈ l := by
  induction l using firstOccKeys.induct with
  | case1 => simp [firstOccKeys_nil]
  | case2 v vs ih =>
    intro u
    rw [firstOccKeys_cons]
    constructor
    · intro hu
      rcases List.mem_cons.mp hu with rfl | hu
      · exact List.mem_cons_self _ _
      · exact List.mem_cons_of_mem _ (List.mem_of_mem_filter ((ih u).mp hu))
    · intro hu
      rcases List.mem_cons.mp hu with rfl | hu
      · exact List.mem_cons_self _ _
      · by_cases huv : u = v
        · subst huv
          exact List.mem_cons_self _ _
        · exact List.mem_cons_of_mem _
            ((ih u).mpr (List.mem_filter.mpr ⟨hu, by simpa using huv⟩))

/-- Any member of a list is bounded by its max fold. -/
theorem le_foldr_max (l : List ℕ) (a b : ℕ) (h : a ∈ l) : a ≤ l.foldr max b := by
  induction l with
  | nil => simp at h
  | cons x xs ih =>
    rcases List.mem_cons.mp h with rfl | h
    · exact le_max_left _ _
    · exact le_trans (ih h) (le_max_right _ _)

/-- A successful `find?` splits its list into failing elements, the hit,
and a remainder. -/
theorem find?_split {α : Type} (p : α → Bool) (l : List α) (b : α)
    (h : l.find? p = some b) :
    ∃ as bs, l = as ++ b :: bs ∧ ∀ a ∈ as, p a = false := by
  induction l with
  | nil => simp at h
  | cons x xs ih =>
    rw [List.find?_cons] at h
    split at h
    · obtain rfl : x = b := by simpa using h
      exact ⟨[], xs, rfl, by simp⟩
    · obtain ⟨as, bs, rfl, hall⟩ := ih h
      refine ⟨x :: as, bs, rfl, ?_⟩
      intro a ha
      rcases List.mem_cons.mp ha with rfl | ha
      · rename_i hpx
        simpa using hpx
      · exact hall a ha

/-- Filtering preserves the relative order of first occurrences. -/
theorem indexOf_filter_lt (p : ℤ → Bool) :
    ∀ (vs : List ℤ) (a b : ℤ), a ∈ vs.filter p → b ∈ vs.filter p →
      (vs.filter p).indexOf a < (vs.filter p).indexOf b →
      vs.indexOf a < vs.indexOf b := by
  intro vs
  induction vs with
  | nil => simp
  | cons w ws ih =>
    intro a b ha hb hlt
    by_cases hpw : p w
    · rw [List.filter_cons_of_pos hpw] at ha hb hlt
      by_cases haw : a = w
      · subst haw
        have hba : b ≠ a := by
          intro hba
          subst hba
          simp [List.indexOf_cons_self] at hlt
        rw [List.indexOf_cons_self, List.indexOf_cons_ne _ (Ne.symm hba)]
        omega
      · have hwa : w ≠ a := Ne.symm haw
        rw [List.indexOf_cons_ne _ hwa] at hlt
        have hbw : b ≠ w := by
          intro hbw
          subst hbw
          rw [List.indexOf_cons_self] at hlt
          omega
        rw [List.indexOf_cons_ne _ (Ne.symm hbw)] at hlt
        have ha' : a ∈ ws.filter p := by
          rcases List.mem_cons.mp ha with rfl | h'
          · exact absurd rfl haw
          · exact h'
        have hb' : b ∈ ws.filter p := by
          rcases List.mem_cons.mp hb with rfl | h'
          · exact absurd rfl hbw
          · exact h'
        have := ih a b ha' hb' (by omega)
        rw [List.indexOf_cons_ne _ hwa, List.indexOf_cons_ne _ (Ne.symm hbw)]
        omega
    · rw [List.filter_cons_of_neg hpw] at ha hb hlt
      have hpa : p a = true := List.of_mem_filter ha
      have hpb : p b = true := List.of_mem_filter hb
      have haw : a ≠ w := by
        intro hh
        subst hh
        exact hpw hpa
      have hbw : b ≠ w := by
        intro hh
        subst hh
        exact hpw hpb
      have := ih a b ha hb hlt
      rw [List.indexOf_cons_ne _ (Ne.symm haw), List.indexOf_cons_ne _ (Ne.symm hbw)]
      omega

/-- The Counter dictionary lists keys in strictly increasing order of
first occurrence. -/
theorem pairwise_indexOf_firstOccKeys (l : List ℤ) :
    (firstOccKeys l).Pairwise (fun a b => l.indexOf a < l.indexOf b) := by
  induction l using firstOccKeys.induct with
  | case1 => simp [firstOccKeys_nil]
  | case2 v vs ih =>
    rw [firstOccKeys_cons]
    refine List.Pairwise.cons ?_ ?_
    · intro b hb
      have hb' : b ∈ vs.filter (fun u => u != v) := (mem_firstOccKeys _ b).mp hb
      have hbv : b ≠ v := by simpa using List.of_mem_filter hb'
      rw [List.indexOf_cons_self, List.indexOf_cons_ne _ (Ne.symm hbv)]
      omega
    · refine ih.imp_of_mem ?_
      intro a b ha hb hr
      have ha' := (mem_firstOccKeys _ a).mp ha
      have hb' := (mem_firstOccKeys _ b).mp hb
      have hav : a ≠ v := by simpa using List.of_mem_filter ha'
      have hbv : b ≠ v := by simpa using List.of_mem_filter hb'
      have := indexOf_filter_lt (fun u => u != v) vs a b ha' hb' hr
      rw [List.indexOf_cons_ne _ (Ne.symm hav), List.indexOf_cons_ne _ (Ne.symm hbv)]
      omega


/-! ## Claim theorems -/

/-- C2: the consensus grade returned by `Counter(grade).most_common(1)`
inside `text_standard` is a vote with the highest count, and on ties the
winner is the vote value that was appended first (least first-occurrence
index in the vote list), not the numerically smallest or largest. -/
theorem c2_consensus_vote (votes : List ℤ) (g : ℤ) (h : mostCommon1 votes = some g) :
    g ∈ votes ∧ (∀ u ∈ votes, votes.count u ≤ votes.count g)
      ∧ ∀ u ∈ votes, votes.count u = votes.count g →
          votes.indexOf g ≤ votes.indexOf u := by
  simp only [mostCommon1] at h
  have hg_keys : g ∈ firstOccKeys votes := List.mem_of_find?_eq_some h
  have hgcount : votes.count g
      = ((firstOccKeys votes).map (fun k => votes.count k)).foldr max 0 := by
    simpa using List.find?_some h
  refine ⟨(mem_firstOccKeys votes g).mp hg_keys, ?_, ?_⟩
  · intro u hu
    have hu_keys : u ∈ firstOccKeys votes := (mem_firstOccKeys votes u).mpr hu
    rw [hgcount]
    exact le_foldr_max _ _ 0 (List.mem_map_of_mem _ hu_keys)
  · intro u hu hcnt
    obtain ⟨as, bs, hsplit, hfail⟩ := find?_split _ _ _ h
    have hu_keys : u ∈ firstOccKeys votes := (mem_firstOccKeys votes u).mpr hu
    rw [hsplit] at hu_keys
    rcases List.mem_append.mp hu_keys with hu_as | hu_cons
    · have hfalse := hfail u hu_as
      rw [hcnt, hgcount] at hfalse
      simp at hfalse
    · rcases List.mem_cons.mp hu_cons with rfl | hu_bs
      · exact le_refl _
      · have hpw := pairwise_indexOf_firstOccKeys votes
        rw [hsplit, List.pairwise_append] at hpw
        exact le_of_lt ((List.pairwise_cons.mp hpw.2.1).1 u hu_bs)

/-- Witness for C2: in the vote list `[3, 2, 2, 3]` both values have
count two; the winner is 3, the value appended first, although 2 is the
numerically smaller value. -/
theorem c2_witness :
    mostCommon1 [3, 2, 2, 3] = some 3
      ∧ ([3, 2, 2, 3] : List ℤ).count 2 = ([3, 2, 2, 3] : List ℤ).count 3
      ∧ ([3, 2, 2, 3] : List ℤ).indexOf 3 ≤ ([3, 2, 2, 3] : List ℤ).indexOf 2 := by
  have h : mostCommon1 [3, 2, 2, 3] = some 3 := by
    simp [mostCommon1, firstOccKeys_cons, firstOccKeys_nil]
  exact ⟨h, by decide, (c2_consensus_vote _ 3 h).2.2 2 (by decide) (by decide)⟩

/-- C4: `count_sentences` is at least 1 on every text and the other
counters under `src/` are nonnegative, but `count_arabic_syllables`
returns −2 on the empty string: the no-diacritic fallback computes
`len(stripped) - 2`, which is negative for texts shorter than two
characters after stripping. -/
theorem c4_counter_nonnegativity :
    (∀ t, 1 ≤ count_sentences t)
      ∧ (∀ t, 0 ≤ count_arabic_long_words t)
      ∧ (∀ syl t, 0 ≤ count_monosyllable_words syl t)
      ∧ count_arabic_syllables [] = -2 := by
  refine ⟨?_, ?_, ?_, ?_⟩
  · intro t
    exact le_max_left _ _
  · intro t
    exact Int.natCast_nonneg _
  · intro syl t
    exact Int.natCast_nonneg _
  · simp [count_arabic_syllables, charList, shortLongCounts, tashkeelRaw, scanShortLong,
      strippedFallback, pySplit, remove_punctuation]

/-- C5: the tashkeel comparison of `count_arabic_syllables` compares a
one-character string against a six-character raw string and never
matches, so even for a text containing a fatha the short/long loop
finds nothing and the fallback applies: the result on feh+fatha is 0,
not the short-syllable count 1 the claim requires. -/
theorem c5_tashkeel_loop_dead :
    fathaChar ∈ [fehChar, fathaChar]
      ∧ shortLongCounts (charList [fehChar, fathaChar]) = (0, 0)
      ∧ count_arabic_syllables [fehChar, fathaChar] = 0 := by
  refine ⟨by simp, ?_, ?_⟩
  · simp [charList, shortLongCounts, tashkeelRaw, scanShortLong, pySplit,
      remove_punctuation, isTextChar, isSpaceChar, fehChar, fathaChar, longVowelStrs]
  · simp [count_arabic_syllables, charList, shortLongCounts, tashkeelRaw, scanShortLong,
      strippedFallback, pySplit, remove_punctuation, isTextChar, isSpaceChar,
      fehChar, fathaChar, alefChar, alefMaqsuraChar, longVowelStrs, stressChars]

/-- C8: on the input feh + fatha + alef the code returns 0, not the
long-syllable weight 2 required by the spec: the dead tashkeel loop
forces the fallback, which strips the alef and computes `2 - 2 = 0`. -/
theorem c8_consonant_fatha_alef :
    count_arabic_syllables [fehChar, fathaChar, alefChar] = 0 := by
  simp [count_arabic_syllables, charList, shortLongCounts, tashkeelRaw, scanShortLong,
    strippedFallback, pySplit, remove_punctuation, isTextChar, isSpaceChar,
    fehChar, fathaChar, alefChar, alefMaqsuraChar, longVowelStrs, stressChars]

/-- C6: every segment produced by the sentence scan is a nonempty run of
non-terminal characters followed by a run of terminal marks, and when
every segment has at most two words the subtraction empties the tally
and the floor of one applies. -/
theorem c6_sentence_floor (t : List Char) :
    (∀ s ∈ findSegments false t, ∃ body terms, s = body ++ terms ∧ body ≠ []
      ∧ (∀ c ∈ body, isTerminalChar c = false)
      ∧ (∀ c ∈ terms, isTerminalChar c = true))
    ∧ ((∀ s ∈ findSegments false t, count_words s ≤ 2) → count_sentences t = 1) :=
  ⟨findSegments_shape false t, count_sentences_eq_one_of_ignored t⟩

/-- Witness for C6: a text made of two two-word sentences counts as one
sentence. -/
theorem c6_witness : count_sentences "Hi there. Go now.".toList = 1 :=
  (c6_sentence_floor _).2 (by
    simp [findSegments, isWordChar, isTerminalChar, count_words, list_words,
      pySplit, remove_punctuation, isTextChar, isSpaceChar])

/-- C7: on a zero-word text the ARI lands in its ZeroDivisionError
branch and returns 0, and the sentence count collapses to 1 so the SMOG
short-text guard also returns 0; independently, SMOG returns 0 whenever
the sentence count is below 3. -/
theorem c7_formula_zero_guards (syl : List Char → ℤ) (t : List Char) :
    (count_words t = 0 →
      automated_readability_index t = 0 ∧ smog_index syl t = 0 ∧ count_sentences t = 1)
    ∧ (count_sentences t < 3 → smog_index syl t = 0) := by
  constructor
  · intro hw
    have hs1 : count_sentences t = 1 :=
      count_sentences_eq_one_of_ignored t
        (fun s hs => by rw [count_words_segment_zero t hw s hs]; norm_num)
    refine ⟨?_, ?_, hs1⟩
    · simp [automated_readability_index, hw]
    · norm_num [smog_index, hs1]
  · intro hs
    simp only [smog_index]
    rw [if_pos hs]

/-- Witness for C7 at the empty string. -/
theorem c7_witness :
    count_words ([] : List Char) = 0
      ∧ automated_readability_index [] = 0
      ∧ smog_index (fun _ => 0) [] = 0
      ∧ count_sentences ([] : List Char) < 3 := by
  have hw : count_words ([] : List Char) = 0 := by
    simp [count_words, list_words, remove_punctuation, pySplit_nil]
  have h := (c7_formula_zero_guards (fun _ => 0) []).1 hw
  exact ⟨hw, h.1, h.2.1, by rw [h.2.2]; norm_num⟩

/-- C9: appending sentence-terminal punctuation never decreases the
sentence count (in fact it leaves it unchanged). -/
theorem c9_terminal_append_monotone (t p : List Char) (hp1 : p ≠ [])
    (hp : ∀ c ∈ p, isTerminalChar c = true) :
    count_sentences t ≤ count_sentences (t ++ p) :=
  le_of_eq (count_sentences_append_term t p hp).symm

/-- Witness for C9. -/
theorem c9_witness :
    ("!".toList ≠ ([] : List Char))
      ∧ count_sentences "Hi.".toList ≤ count_sentences ("Hi.".toList ++ "!".toList) :=
  ⟨by decide, c9_terminal_append_monotone _ _ (by decide) (by decide)⟩

/-- C10: on a zero-word text with a positive character count,
`chars_per_word` returns the character count itself, a positive value,
not 0. -/
theorem c10_chars_per_word_no_words (text : List Char) (ig : Bool)
    (h0 : count_words text = 0) (hpos : 0 < count_chars text ig) :
    chars_per_word text ig = (count_chars text ig : ℚ)
      ∧ 0 < chars_per_word text ig := by
  rw [chars_per_word, if_pos h0]
  exact ⟨rfl, by exact_mod_cast hpos⟩

/-- Witness for C10 at the punctuation-only text `"..."`. -/
theorem c10_witness :
    count_words "...".toList = 0
      ∧ (0 : ℤ) < count_chars "...".toList true
      ∧ chars_per_word "...".toList true = (count_chars "...".toList true : ℚ) := by
  have hw : count_words "...".toList = 0 := by
    simp [count_words, list_words, remove_punctuation, isTextChar, isSpaceChar, pySplit_nil]
  exact ⟨hw, by decide, (c10_chars_per_word_no_words _ true hw (by decide)).1⟩


/-- C3: the Flesch-Reading-Ease vote bucket of `text_standard` realizes
exactly the fixed table with boundaries at 90, 80, 70, 60, 50, 40, 30;
the 60-70 bucket votes both 8 and 9 and every value outside [30, 100)
votes 13.  Since the eight vote lists are pairwise distinct, the eight
interval conditions are mutually exclusive and exhaustive: exactly one
bucket applies to every score. -/
theorem c3_fre_bucket_table (s : ℚ) :
    ((90 ≤ s ∧ s < 100) ↔ freBucket s = [5])
      ∧ ((80 ≤ s ∧ s < 90) ↔ freBucket s = [6])
      ∧ ((70 ≤ s ∧ s < 80) ↔ freBucket s = [7])
      ∧ ((60 ≤ s ∧ s < 70) ↔ freBucket s = [8, 9])
      ∧ ((50 ≤ s ∧ s < 60) ↔ freBucket s = [10])
      ∧ ((40 ≤ s ∧ s < 50) ↔ freBucket s = [11])
      ∧ ((30 ≤ s ∧ s < 40) ↔ freBucket s = [12])
      ∧ ((s < 30 ∨ 100 ≤ s) ↔ freBucket s = [13]) := by
  unfold freBucket
  split_ifs with h1 h2 h3 h4 h5 h6 h7
  · refine ⟨?_, ?_, ?_, ?_, ?_, ?_, ?_, ?_⟩ <;> constructor <;> intro hx <;>
      first
        | rfl
        | (exact ⟨h1.2, h1.1⟩)
        | (exact absurd hx (by decide))
        | (exfalso; obtain ⟨hxa, hxb⟩ := hx; linarith [h1.1, h1.2])
        | (exfalso; rcases hx with hx | hx <;> linarith [h1.1, h1.2])
  · refine ⟨?_, ?_, ?_, ?_, ?_, ?_, ?_, ?_⟩ <;> constructor <;> intro hx <;>
      first
        | rfl
        | (exact ⟨h2.2, h2.1⟩)
        | (exact absurd hx (by decide))
        | (exfalso; obtain ⟨hxa, hxb⟩ := hx; linarith [h2.1, h2.2])
        | (exfalso; rcases hx with hx | hx <;> linarith [h2.1, h2.2])
  · refine ⟨?_, ?_, ?_, ?_, ?_, ?_, ?_, ?_⟩ <;> constructor <;> intro hx <;>
      first
        | rfl
        | (exact ⟨h3.2, h3.1⟩)
        | (exact absurd hx (by decide))
        | (exfalso; obtain ⟨hxa, hxb⟩ := hx; linarith [h3.1, h3.2])
        | (exfalso; rcases hx with hx | hx <;> linarith [h3.1, h3.2])
  · refine ⟨?_, ?_, ?_, ?_, ?_, ?_, ?_, ?_⟩ <;> constructor <;> intro hx <;>
      first
        | rfl
        | (exact ⟨h4.2, h4.1⟩)
        | (exact absurd hx (by decide))
        | (exfalso; obtain ⟨hxa, hxb⟩ := hx; linarith [h4.1, h4.2])
        | (exfalso; rcases hx with hx | hx <;> linarith [h4.1, h4.2])
  · refine ⟨?_, ?_, ?_, ?_, ?_, ?_, ?_, ?_⟩ <;> constructor <;> intro hx <;>
      first
        | rfl
        | (exact ⟨h5.2, h5.1⟩)
        | (exact absurd hx (by decide))
        | (exfalso; obtain ⟨hxa, hxb⟩ := hx; linarith [h5.1, h5.2])
        | (exfalso; rcases hx with hx | hx <;> linarith [h5.1, h5.2])
  · refine ⟨?_, ?_, ?_, ?_, ?_, ?_, ?_, ?_⟩ <;> constructor <;> intro hx <;>
      first
        | rfl
        | (exact ⟨h6.2, h6.1⟩)
        | (exact absurd hx (by decide))
        | (exfalso; obtain ⟨hxa, hxb⟩ := hx; linarith [h6.1, h6.2])
        | (exfalso; rcases hx with hx | hx <;> linarith [h6.1, h6.2])
  · refine ⟨?_, ?_, ?_, ?_, ?_, ?_, ?_, ?_⟩ <;> constructor <;> intro hx <;>
      first
        | rfl
        | (exact ⟨h7.2, h7.1⟩)
        | (exact absurd hx (by decide))
        | (exfalso; obtain ⟨hxa, hxb⟩ := hx; linarith [h7.1, h7.2])
        | (exfalso; rcases hx with hx | hx <;> linarith [h7.1, h7.2])
  · push_neg at h1 h2 h3 h4 h5 h6 h7
    refine ⟨?_, ?_, ?_, ?_, ?_, ?_, ?_, ?_⟩ <;> constructor <;> intro hx <;>
      first
        | rfl
        | (exact absurd hx (by decide))
        | (exfalso
           obtain ⟨hxa, hxb⟩ := hx
           first
             | linarith [h1 hxb]
             | linarith [h2 hxb]
             | linarith [h3 hxb]
             | linarith [h4 hxb]
             | linarith [h5 hxb]
             | linarith [h6 hxb]
             | linarith [h7 hxb])
        | (rcases lt_or_le s 100 with hs | hs
           · exact Or.inl (h7 (h6 (h5 (h4 (h3 (h2 (h1 hs)))))))
           · exact Or.inr hs)


/-- C1: with the six missing formulas constrained by the spec's
division-by-zero policy, the backend consensus for the empty string is
the grade 0 (fourteen zero votes against one vote of 13), so the float
form of the public `text_standard` is 0.0 as the claim states; but the
wrapper renders the string form from the same consensus as
`int(g) - 1` and `int(g)`, which yields "-1th and 0th grade", and no
ordinal-suffix collaborator can make it the claimed
"0th and 1st grade". -/
theorem c1_empty_text_standard (F : Formulas) (hF : DivZeroPolicy F) :
    text_standard F [] = 0
      ∧ textstatistics_text_standard_float F [] = 0
      ∧ textstatistics_text_standard_text F get_grade_suffix [] = "-1th and 0th grade".toList
      ∧ ∀ sfx, textstatistics_text_standard_text F sfx [] ≠ "0th and 1st grade".toList := by
  have hw : count_words ([] : List Char) = 0 := by
    simp [count_words, list_words, remove_punctuation, pySplit_nil]
  obtain ⟨hfkg, hfre, hcli, hdc, hlw, hgf⟩ := hF [] hw
  have hsent : count_sentences ([] : List Char) = 1 := by
    simp [count_sentences, findSegments_nil]
  have hsmog : smog_index F.syllables_for [] = 0 := by
    simp only [smog_index, hsent]
    rw [if_pos (by norm_num : (1 : ℤ) < 3)]
  have hari : automated_readability_index [] = 0 := by
    simp [automated_readability_index, hw]
  have hbucket : freBucket 0 = [13] := by
    norm_num [freBucket]
  have hvotes : gradeVotes F [] = [0, 0, 13, 0, 0, 0, 0, 0, 0, 0, 0, 0, 0, 0, 0] := by
    simp [gradeVotes, hfkg, hfre, hcli, hdc, hlw, hgf, hsmog, hari, hbucket]
  have hmc : mostCommon1 [0, 0, 13, 0, 0, 0, 0, 0, 0, 0, 0, 0, 0, 0, 0] = some 0 := by
    simp [mostCommon1, firstOccKeys_cons, firstOccKeys_nil]
  have hts : text_standard F [] = 0 := by
    rw [text_standard, hvotes, hmc]
    rfl
  have hpy : pyInt 0 = 0 := by
    norm_num [pyInt]
  have e1 : pyInt (text_standard F []) - 1 = -1 := by
    rw [hts, hpy]
    norm_num
  have e2 : (-1 : ℤ) + 1 = 0 := by
    norm_num
  refine ⟨hts, hts, ?_, ?_⟩
  · simp only [textstatistics_text_standard_text, e1, e2]
    rw [show (Int.repr (-1)).toList = ['-', '1'] from by decide,
      show (Int.repr (0 : ℤ)).toList = ['0'] from by decide,
      show get_grade_suffix (-1) = ['t', 'h'] from by decide,
      show get_grade_suffix 0 = ['t', 'h'] from by decide]
    rfl
  · intro sfx heq
    simp only [textstatistics_text_standard_text, e1, e2] at heq
    rw [show (Int.repr (-1)).toList = ['-', '1'] from by decide] at heq
    simp only [List.cons_append, List.nil_append] at heq
    rw [show "0th and 1st grade".toList = '0' :: "th and 1st grade".toList from rfl] at heq
    have hchar : ('-' : Char) = '0' := (List.cons_eq_cons.mp heq).1
    exact absurd hchar (by decide)

/-- Witness for C1 at the all-zero formula environment, which satisfies
the division-by-zero policy. -/
theorem c1_witness :
    text_standard zeroFormulas [] = 0
      ∧ textstatistics_text_standard_text zeroFormulas get_grade_suffix []
          = "-1th and 0th grade".toList := by
  have h := c1_empty_text_standard zeroFormulas (fun t _ => by simp [zeroFormulas])
  exact ⟨h.1, h.2.2.1⟩
